import Mathlib

/-!
Verification of the order-classification and address-normalization core of the
3pl-logis repository against its natural-language specification.

Python strings are modelled as `List Char`; pandas cells that may be NaN are
modelled as `Option (List Char)` (with `none` for NaN).  Each definition below
carries a comment naming the repository function it embeds.
-/

namespace ThreePL

/-! ## Basic string machinery (embedding of the Python string operations used) -/

/-- Whitespace characters recognised by Python `str.split()` / `str.strip()` /
`\s` for the character set appearing in this system (ASCII whitespace). -/
def isWs (c : Char) : Bool :=
  c = ' ' || c = '\t' || c = '\n' || c = '\r' || c = '\x0b' || c = '\x0c'

/-- Python `str.strip()`: drop leading and trailing whitespace. -/
def stripPy (s : List Char) : List Char :=
  ((s.dropWhile isWs).reverse.dropWhile isWs).reverse

/-- Accumulator loop of `splitWs` (`cur` holds the current token reversed). -/
def splitWsAcc (cur : List Char) : List Char → List (List Char)
  | [] => if cur.isEmpty then [] else [cur.reverse]
  | c :: cs =>
    if isWs c then
      if cur.isEmpty then splitWsAcc [] cs
      else cur.reverse :: splitWsAcc [] cs
    else splitWsAcc (c :: cur) cs

/-- Python `str.split()` with no argument: maximal runs of non-whitespace. -/
def splitWs (s : List Char) : List (List Char) := splitWsAcc [] s

/-- `' '.join(words)` (and, with another separator, `sep.join`). -/
def joinWith (sep : List Char) : List (List Char) → List Char
  | [] => []
  | [w] => w
  | w :: ws => w ++ sep ++ joinWith sep ws

/-- `' '.join(words)`. -/
def joinSpace (ws : List (List Char)) : List Char := joinWith [' '] ws

/-- Flagged loop of `collapseWs` (`inRun` records whether the previous
character was whitespace already replaced by a space). -/
def collapseWsFlag (inRun : Bool) : List Char → List Char
  | [] => []
  | c :: cs =>
    if isWs c then
      if inRun then collapseWsFlag true cs
      else ' ' :: collapseWsFlag true cs
    else c :: collapseWsFlag false cs

/-- `re.sub(r'\s+', ' ', s)`: collapse every whitespace run to one space. -/
def collapseWs (s : List Char) : List Char := collapseWsFlag false s

/-- Python substring test `needle in hay`. -/
def isSubstr (needle hay : List Char) : Bool :=
  match hay with
  | [] => needle.isEmpty
  | _ :: t => needle.isPrefixOf hay || isSubstr needle t

/-- Python `s.endswith(t)`. -/
def endsWithB (s t : List Char) : Bool := t.isSuffixOf s

/-- Python `c in s` for a single character. -/
def containsCharB (c : Char) (s : List Char) : Bool := s.any (fun d => d = c)

/-- Python `s.split(sep)` for a one-character separator (keeps empty chunks;
`''.split(c) = ['']`). -/
def splitOnChar (c : Char) (s : List Char) : List (List Char) :=
  match s with
  | [] => [[]]
  | x :: xs =>
    let r := splitOnChar c xs
    if x = c then [] :: r
    else
      match r with
      | [] => [[x]]
      | h :: t => (x :: h) :: t

/-- Python `raw.split('-')[0]` (prefix of the string before the first `-`). -/
def takeBeforeChar (c : Char) (s : List Char) : List Char :=
  s.takeWhile (fun d => d ≠ c)

/-- Python `str.upper()` restricted to the ASCII letters (identity elsewhere;
the keywords matched in this system are ASCII and Hangul). -/
def toUpperAscii (c : Char) : Char :=
  if 'a' ≤ c ∧ c ≤ 'z' then Char.ofNat (c.toNat - 32) else c

/-- Python `str.lower()` restricted to the ASCII letters. -/
def toLowerAscii (c : Char) : Char :=
  if 'A' ≤ c ∧ c ≤ 'Z' then Char.ofNat (c.toNat + 32) else c

def upperStr (s : List Char) : List Char := s.map toUpperAscii

def lowerStr (s : List Char) : List Char := s.map toLowerAscii

/-! ## Character classes -/

/-- Hangul syllable block 가-힣 (the Python regex `[가-힣]`). -/
def isHangulSyllable (c : Char) : Bool :=
  0xAC00 ≤ c.toNat && c.toNat ≤ 0xD7A3

/-- CJK Unified Ideographs `[一-鿿]`. -/
def isCJK (c : Char) : Bool := 0x4E00 ≤ c.toNat && c.toNat ≤ 0x9FFF

/-- Hiragana `[぀-ゟ]`. -/
def isHiragana (c : Char) : Bool := 0x3040 ≤ c.toNat && c.toNat ≤ 0x309F

/-- Katakana `[゠-ヿ]`. -/
def isKatakana (c : Char) : Bool := 0x30A0 ≤ c.toNat && c.toNat ≤ 0x30FF

def isAsciiLetter (c : Char) : Bool :=
  ('a' ≤ c && c ≤ 'z') || ('A' ≤ c && c ≤ 'Z')

def isAsciiDigit (c : Char) : Bool := '0' ≤ c && c ≤ '9'

/-- Word character for the Python regex `\b` boundary (`\w`), over the
character ranges this system's data can contain: ASCII alphanumerics and
underscore, Latin-1/Latin-Extended-A letters, Hangul, CJK, kana. -/
def isWordChar (c : Char) : Bool :=
  isAsciiLetter c || isAsciiDigit c || c = '_' ||
  (0xC0 ≤ c.toNat && c.toNat ≤ 0xFF) || (0x100 ≤ c.toNat && c.toNat ≤ 0x17F) ||
  isHangulSyllable c || isCJK c || isHiragana c || isKatakana c

/-! ## SkuClassifier (common_utils.convert_orders_to_dataframe, dok_status masks) -/

/-- The literal tag `[디지털]`. -/
def digTag : List Char := "[디지털]".data

/-- The literal tag `[B2B]`. -/
def b2bTag : List Char := "[B2B]".data

/-- The literal tag `[예약상품]`. -/
def resTag : List Char := "[예약상품]".data

/-- `sku_for_status = raw_sku.split('-')[0] if raw_sku else ''`
(common_utils.convert_orders_to_dataframe, line 363): the portion of the raw
SKU before the first hyphen, stored in the dataframe `SKU` column. -/
def skuForStatus (raw : List Char) : List Char := takeBeforeChar '-' raw

/-- Membership of a raw SKU in a tag bucket as every downstream mask computes
it: `df["SKU"].str.contains(tag-literal)` where the `SKU` column holds
`sku_for_status` (dok_status lines 72, 113, 154; main.py lines 130, 149;
mini_domestic lines 26-29; mini_international lines 256-259). -/
def bucketTagMember (tag raw : List Char) : Bool :=
  isSubstr tag (skuForStatus raw)

/-- Modelled from the spec's words for claim C2: tag membership decided by a
literal substring test against the full raw SKU. -/
def tagMemberSpecClaim (tag raw : List Char) : Bool := isSubstr tag raw

/-- common_utils.is_pure_digital_product (lines 503-526): pure-digital iff the
SKU ends with `[디지털]` and, when composite, fewer than 3 of its `/`-separated
components fail to end with `[디지털]`. -/
def is_pure_digital_product (sku : List Char) : Bool :=
  if !endsWithB sku digTag then false
  else if containsCharB '/' sku then
    let components := splitOnChar '/' sku
    let physical := components.filter (fun c => !endsWithB c digTag)
    if physical.length ≥ 3 then false else true
  else true

/-- Modelled from the spec's words for claim C3: same shape, but a component
"lacks the digital tag" is read with the spec's tag semantics (literal
substring test), not the code's ends-with test. -/
def isPureDigitalSpec (sku : List Char) : Bool :=
  endsWithB sku digTag &&
    (!containsCharB '/' sku ||
      decide (((splitOnChar '/' sku).filter (fun c => !isSubstr digTag c)).length < 3))

/-! ## AddressNormalizer predicates (common_utils.is_korean_address and friends) -/

/-- `re.search(r'[가-힣]', s)` as used throughout common_utils. -/
def hasHangul (s : List Char) : Bool := s.any isHangulSyllable

/-- `\b` boundary on the left of a match: start of string or a non-word
character. -/
def boundaryBefore : Option Char → Bool
  | none => true
  | some c => !isWordChar c

/-- `\b` boundary on the right of a match: end of string or a non-word
character. -/
def boundaryAfter : List Char → Bool
  | [] => true
  | c :: _ => !isWordChar c

/-- Scanner for `re.search(r'\bKR\b', s, re.IGNORECASE)`
(common_utils.is_korean_address line 415); `prev` is the character preceding
the current position. -/
def krSearch (prev : Option Char) (s : List Char) : Bool :=
  match s with
  | a :: b :: rest =>
    (boundaryBefore prev && (toUpperAscii a = 'K') && (toUpperAscii b = 'R')
      && boundaryAfter rest)
    || krSearch (some a) (b :: rest)
  | _ => false

def hasStandaloneKR (s : List Char) : Bool := krSearch none s

/-- The keyword list of common_utils.is_korean_address line 419. -/
def koreanKeywords : List (List Char) :=
  ["KOREA".data, "SOUTH KOREA".data, "대한민국".data, "한국".data]

/-- `any(keyword in addr_str.upper() for keyword)` (line 419-422). -/
def hasKoreaKeyword (s : List Char) : Bool :=
  koreanKeywords.any (fun k => isSubstr k (upperStr s))

/-- common_utils.is_korean_address (lines 403-424) on a non-NaN cell. -/
def isKoreanAddr (s : List Char) : Bool :=
  if hasHangul s then true
  else if hasStandaloneKR s then true
  else if hasKoreaKeyword s then true
  else false

/-- common_utils.is_korean_address including the `pd.isna` guard. -/
def isKoreanAddrOpt : Option (List Char) → Bool
  | none => false
  | some s => isKoreanAddr s

/-- common_utils.has_korean_characters (lines 426-430) on a non-NaN cell. -/
def has_korean_characters (s : List Char) : Bool := hasHangul s

/-- The allow-list class removed by the `re.sub` of
common_utils.has_non_english_characters line 458:
`[a-zA-Z0-9\s.,\-()/#&'"À-ÿĀ-ſ]`. -/
def isAllowedLatinChar (c : Char) : Bool :=
  isAsciiLetter c || isAsciiDigit c || isWs c ||
  c = '.' || c = ',' || c = '-' || c = '(' || c = ')' || c = '/' ||
  c = '#' || c = '&' || c = '\'' || c = '"' ||
  (0xC0 ≤ c.toNat && c.toNat ≤ 0xFF) || (0x100 ≤ c.toNat && c.toNat ≤ 0x17F)

/-- common_utils.has_non_english_characters (lines 432-462) on a non-NaN
cell: Hangul, CJK ideograph, hiragana, katakana, or any character outside the
allow-list (after removing allowed characters the stripped remainder is
non-empty). -/
def has_non_english_characters (s : List Char) : Bool :=
  if hasHangul s then true
  else if s.any isCJK then true
  else if s.any isHiragana then true
  else if s.any isKatakana then true
  else !(stripPy (s.filter (fun c => !isAllowedLatinChar c))).isEmpty

/-! ## build_clean_address (common_utils lines 528-599) -/

/-- The WooCommerce shipping fields read by build_clean_address. -/
structure ShippingFields where
  address_1 : List Char
  address_2 : List Char
  city : List Char
  state : List Char
  country : List Char
deriving DecidableEq

/-- The Korea synonyms of common_utils lines 561 and 577. -/
def krCountrySynonyms : List (List Char) :=
  ["KR".data, "KOREA".data, "SOUTH KOREA".data, "대한민국".data, "한국".data]

/-- The Korean administrative suffixes of common_utils line 576. -/
def koreanAdminKeywords : List (List Char) :=
  ["도".data, "시".data, "특별시".data, "광역시".data]

/-- The duplicate-region drop of common_utils lines 564-573: a region is kept
iff it is not a proper substring of another candidate region. -/
def dedupRegions (potential : List (List Char)) : List (List Char) :=
  potential.filter (fun region =>
    !(potential.any (fun other => region ≠ other && isSubstr region other)))

/-- The adjacent-duplicate-word drop of common_utils lines 593-597, scanning
with the last kept word. -/
def dedupAdjFrom (prev : List Char) : List (List Char) → List (List Char)
  | [] => []
  | w :: ws => if w = prev then dedupAdjFrom prev ws else w :: dedupAdjFrom w ws

def dedupAdj : List (List Char) → List (List Char)
  | [] => []
  | w :: ws => w :: dedupAdjFrom w ws

/-- The `final_parts` list assembled by common_utils.build_clean_address
lines 534-584: stripped fields, region collection and dedup, and the
Korean/Western ordering policy. -/
def addressFinalParts (sh : ShippingFields) : List (List Char) :=
  let address_1 := stripPy sh.address_1
  let address_2 := stripPy sh.address_2
  let city := stripPy sh.city
  let state := stripPy sh.state
  let country := stripPy sh.country
  let address_parts :=
    (if address_1 ≠ [] then [address_1] else []) ++
    (if address_2 ≠ [] then [address_2] else [])
  let potential_regions :=
    (if state ≠ [] then [state] else []) ++
    (if city ≠ [] ∧ city ≠ state then [city] else []) ++
    (if country ≠ [] ∧ ¬(upperStr country ∈ krCountrySynonyms) then [country] else [])
  let region_parts := dedupRegions potential_regions
  let is_korean :=
    (state ≠ [] && koreanAdminKeywords.any (fun k => isSubstr k state)) ||
    (country ≠ [] && decide (upperStr country ∈ krCountrySynonyms))
  if is_korean then region_parts ++ address_parts
  else address_parts ++ region_parts

/-- common_utils.build_clean_address on a present (truthy) shipping dict,
lines 586-599: join, strip, collapse whitespace, drop adjacent duplicate
words, re-join. -/
def buildCleanAddressCore (sh : ShippingFields) : List Char :=
  joinSpace (dedupAdj (splitWs (collapseWs (stripPy (joinSpace (addressFinalParts sh))))))

/-- common_utils.build_clean_address including the falsy-dict guard
(`if not shipping: return ""`). -/
def build_clean_address : Option ShippingFields → List Char
  | none => []
  | some sh => buildCleanAddressCore sh

/-- Shipping fields consisting of a sole first address line. -/
def soleAddressLine (a : List Char) : ShippingFields :=
  { address_1 := a, address_2 := [], city := [], state := [], country := [] }

/-! ## Order rows and bucket pipelines (main.py, mini_domestic, dok_status,
mini_international / dok_international) -/

/-- One dataframe row produced by common_utils.convert_orders_to_dataframe:
one line item of one order.  `sku` holds the `SKU` column (the status SKU),
`addr` the `배송지주소` column (NaN modelled as `none`), `recipient` the
`수령인명` column. -/
structure Row where
  orderId : List Char
  sku : List Char
  addr : Option (List Char)
  recipient : List Char
deriving DecidableEq

/-- `str(cell)` on a possibly-NaN cell (pandas renders NaN as "nan"). -/
def pyStrOfOpt : Option (List Char) → List Char
  | none => "nan".data
  | some s => s

/-- main.py lines 130/149: the shipping dataframe, with every row whose SKU
contains `[예약상품]` removed before the domestic/international split. -/
def shippingDf (df : List Row) : List Row :=
  df.filter (fun r => !isSubstr resTag r.sku)

/-- dok_status.process_dok_reservation_status_change lines 71-92: the order
ids whose rows carry the reservation tag, sent to
`update_orders_batch(..., "processing")`. -/
def dokReservationStatusOrderIds (df : List Row) : List (List Char) :=
  (df.filter (fun r => isSubstr resTag r.sku)).map (fun r => r.orderId)

/-- dok_status.process_dok_digital_status_change lines 112-136: the order ids
whose rows carry the digital tag, sent to `update_orders_batch(..., "shipped")`.
No purity filtering is applied on this (active) path. -/
def dokDigitalStatusOrderIds (df : List Row) : List (List Char) :=
  (df.filter (fun r => isSubstr digTag r.sku)).map (fun r => r.orderId)

/-- mini_domestic.process_mini_domestic_orders lines 18-29: domestic rows are
those with a Korean address, minus rows carrying a B2B or digital tag. -/
def domesticSelected (df : List Row) : List Row :=
  (df.filter (fun r => isKoreanAddrOpt r.addr)).filter
    (fun r => !isSubstr b2bTag r.sku && !isSubstr digTag r.sku)

/-- The address-presence test of mini_international lines 226-230 /
dok_international lines 21-25: `notna & (str.strip() != "") & ~is_korean`. -/
def addrPresentNonempty : Option (List Char) → Bool
  | none => false
  | some a => !(stripPy a).isEmpty

/-- mini_international lines 226-230 / dok_international lines 21-25: the
first overseas filter. -/
def intlFirstPass (df : List Row) : List Row :=
  df.filter (fun r => addrPresentNonempty r.addr && !isKoreanAddrOpt r.addr)

/-- mini_international lines 234-248 / dok_international lines 28-43: the
second domestic re-check, applying is_korean_address to `str(row addr)` and
keeping only rows it does not classify as Korean. -/
def intlRecheckPass (l : List Row) : List Row :=
  l.filter (fun r => !isKoreanAddr (pyStrOfOpt r.addr))

/-- mini_international lines 256-259 / dok_international lines 50-53: drop
rows carrying a B2B or digital tag. -/
def intlTagPass (l : List Row) : List Row :=
  l.filter (fun r => !isSubstr b2bTag r.sku && !isSubstr digTag r.sku)

/-- common_utils.filter_korean_recipients (kept side): drop rows whose
recipient name contains Hangul. -/
def intlRecipientPass (l : List Row) : List Row :=
  l.filter (fun r => !has_korean_characters r.recipient)

/-- common_utils.filter_non_english_addresses (kept side): drop rows whose
address contains non-English script (NaN cells are kept, as `pd.isna` short-
circuits to False). -/
def intlAddrScriptPass (l : List Row) : List Row :=
  l.filter (fun r => !(match r.addr with
                       | none => false
                       | some a => has_non_english_characters a))

/-- The rows that reach the international (EMS) order sheet
(mini_international.process_mini_international_orders lines 226-313,
dok_international lines 21-107); the later Google-Maps normalization rewrites
addresses in place and does not add or remove rows. -/
def intlSelected (df : List Row) : List Row :=
  intlAddrScriptPass (intlRecipientPass (intlTagPass (intlRecheckPass (intlFirstPass df))))

/-! ## Manifest merge (mini_international lines 321-325, dok_international
lines 114-118) -/

/-- The read-concat-write merge: `none` models the day file not existing yet
(`os.path.exists` false), `some old` its current rows. -/
def mergeManifest {α : Type} (existing : Option (List α)) (newRows : List α) : List α :=
  match existing with
  | none => newRows
  | some old => old ++ newRows

/-! ## TrackingReconciler (tracking_updater.py) -/

/-- One row of a carrier tracking sheet (the columns the batch build reads). -/
structure TrackRow where
  orderNo : List Char
  tracking : List Char
  addr : List Char
  countryCode : List Char
deriving DecidableEq

/-- One deduplicated update record (tracking_updater lines 452-461). -/
structure TrackRecord where
  order_id : List Char
  tracking_number : List Char
  carrier_code : List Char
  carrier_name : List Char
  site : List Char
  original_order : List Char
  shipping_type : List Char
deriving DecidableEq

/-- tracking_updater.parse_order_number (lines 603-624): site from the leading
`S`/`D`, then the id up to the first hyphen; `none` for an unrecognized
prefix. -/
def parse_order_number (s : List Char) : Option (List Char × List Char) :=
  match s with
  | 'S' :: rest => some (takeBeforeChar '-' rest, "mini".data)
  | 'D' :: rest => some (takeBeforeChar '-' rest, "dok".data)
  | _ => none

/-- The fixed overseas keyword list of tracking_updater lines 651-657. -/
def overseasKeywords : List (List Char) :=
  ["USA".data, "UNITED STATES".data, "AMERICA".data, "US".data,
   "JAPAN".data, "TOKYO".data, "OSAKA".data, "JP".data,
   "CHINA".data, "BEIJING".data, "SHANGHAI".data, "CN".data,
   "SINGAPORE".data, "SG".data, "TAIWAN".data, "TW".data,
   "HONG KONG".data, "HK".data, "VIETNAM".data, "VN".data]

/-- tracking_updater.determine_shipping_type (lines 637-671). -/
def determine_shipping_type (row : TrackRow) : Bool :=
  let address := stripPy row.addr
  let country_code := stripPy row.countryCode
  if country_code ≠ [] then upperStr country_code ≠ "KR".data
  else if address ≠ [] then
    let au := upperStr address
    if overseasKeywords.any (fun k => isSubstr k au) then true
    else
      let has_korean := address.any isHangulSyllable
      let has_english := address.any isAsciiLetter
      if has_english && !has_korean && decide (address.length > 10) then true
      else false
  else false

/-- tracking_updater.get_carrier_info_from_tracking (lines 626-634). -/
def get_carrier_info (isInternational : Bool) : List Char × List Char :=
  if isInternational then ("EMS".data, "EMS".data)
  else ("CJGLS".data, "대한통운".data)

/-- The per-row computation of the batch-build loop (tracking_updater lines
434-461): `none` when the row is skipped, otherwise the key
`site ++ "_" ++ cleanId` together with the record stored for it. -/
def validEntry (row : TrackRow) : Option (List Char × TrackRecord) :=
  let order_number := stripPy row.orderNo
  let tracking_number := stripPy row.tracking
  if order_number = [] ∨ tracking_number = [] ∨
      lowerStr tracking_number ∈ ["nan".data, "none".data, ([] : List Char)] then
    none
  else
    match parse_order_number order_number with
    | none => none
    | some (cleanId, site) =>
      if cleanId = [] then none
      else
        let isIntl := determine_shipping_type row
        let carrier := get_carrier_info isIntl
        some (site ++ '_' :: cleanId,
          { order_id := cleanId
            tracking_number := tracking_number
            carrier_code := carrier.1
            carrier_name := carrier.2
            site := site
            original_order := order_number
            shipping_type := if isIntl then "해외".data else "국내".data })

/-- Python dict insertion: replace the value in place when the key exists,
append otherwise. -/
def insertOverwrite (m : List (List Char × TrackRecord)) (k : List Char)
    (v : TrackRecord) : List (List Char × TrackRecord) :=
  if m.any (fun p => p.1 = k) then
    m.map (fun p => if p.1 = k then (k, v) else p)
  else m ++ [(k, v)]

/-- One step of the batch-build loop. -/
def trackStep (acc : List (List Char × TrackRecord)) (row : TrackRow) :
    List (List Char × TrackRecord) :=
  match validEntry row with
  | none => acc
  | some (k, v) => insertOverwrite acc k v

/-- tracking_updater.process_tracking_updates lines 431-463: the
`order_tracking_map` built over the sheet rows. -/
def buildTrackingMap (rows : List TrackRow) : List (List Char × TrackRecord) :=
  rows.foldl trackStep []

/-- Dict lookup by key. -/
def lookupKey (k : List Char) (m : List (List Char × TrackRecord)) :
    Option TrackRecord :=
  m.findSome? (fun p => if p.1 = k then some p.2 else none)

/-- The last sheet row contributing a given key, read from the sheet bottom
up (the specification's "last-in-sheet wins"). -/
def lastValidEntry (rows : List TrackRow) (k : List Char) : Option TrackRecord :=
  rows.reverse.findSome? (fun r =>
    match validEntry r with
    | some kv => if kv.1 = k then some kv.2 else none
    | none => none)

/-! ## Geocoder normalization (mini_international.normalize_address_with_google_maps,
reconstruct_address_from_components) -/

/-- One `address_components` entry of the geocoding response. -/
structure AddrComponent where
  types : List (List Char)
  long_name : List Char
  short_name : List Char
deriving DecidableEq

/-- Outcome of the geocoder call: HTTP error or raised exception, a response
whose status is not OK / has no results, or a result's component list. -/
inductive GeoOutcome where
  | httpError : GeoOutcome
  | noResult : GeoOutcome
  | ok : List AddrComponent → GeoOutcome
deriving DecidableEq

/-- mini_international lines 37-41: the first component carrying type
`country`, read with `break`; its `short_name`. -/
def extractCountryCode : List AddrComponent → Option (List Char)
  | [] => none
  | c :: rest =>
    if "country".data ∈ c.types then some c.short_name
    else extractCountryCode rest

/-- The six fields collected by reconstruct_address_from_components lines
72-95 (each an if/elif chain per component, later components overwriting). -/
structure GeoFields where
  street_number : List Char
  route : List Char
  subpremise : List Char
  locality : List Char
  postal_code : List Char
  country : List Char

def emptyGeoFields : GeoFields :=
  { street_number := [], route := [], subpremise := [], locality := [],
    postal_code := [], country := [] }

def geoFieldStep (f : GeoFields) (c : AddrComponent) : GeoFields :=
  if "street_number".data ∈ c.types then { f with street_number := c.long_name }
  else if "route".data ∈ c.types then { f with route := c.long_name }
  else if "subpremise".data ∈ c.types then { f with subpremise := c.long_name }
  else if "locality".data ∈ c.types then { f with locality := c.long_name }
  else if "postal_code".data ∈ c.types then { f with postal_code := c.long_name }
  else if "country".data ∈ c.types then { f with country := c.long_name }
  else f

def extractGeoFields (comps : List AddrComponent) : GeoFields :=
  comps.foldl geoFieldStep emptyGeoFields

/-- reconstruct_address_from_components lines 102-109: the normalized street
address (the `elif route` inner append is dead, as `street_number` is empty
whenever that branch runs). -/
def googleStreetAddress (f : GeoFields) : List Char :=
  if f.route ≠ [] ∧ f.street_number ≠ [] then f.route ++ ' ' :: f.street_number
  else if f.route ≠ [] then
    f.route ++ (if f.street_number ≠ [] then ' ' :: f.street_number else [])
  else []

/-- The per-part recognition test of reconstruct_address_from_components lines
112-144: the part is replaced (not preserved) when any clause of the elif
chain matches. -/
def partReplaced (f : GeoFields) (gsa part : List Char) : Bool :=
  let pl := lowerStr part
  (gsa ≠ [] && (isSubstr (lowerStr gsa) pl || isSubstr pl (lowerStr gsa) ||
    (splitWs (lowerStr gsa)).any (fun w => decide (w.length > 3) && isSubstr w pl)))
  || (f.route ≠ [] && (isSubstr (lowerStr f.route) pl || isSubstr pl (lowerStr f.route) ||
    (splitWs (lowerStr f.route)).any (fun w => decide (w.length > 3) && isSubstr w pl)))
  || (f.locality ≠ [] && isSubstr (lowerStr f.locality) pl)
  || (f.country ≠ [] && isSubstr (lowerStr f.country) pl)
  || (f.postal_code ≠ [] && isSubstr f.postal_code part)

/-- mini_international.reconstruct_address_from_components (lines 69-183). -/
def reconstruct_address_from_components (comps : List AddrComponent)
    (original : List Char) : List Char :=
  let f := extractGeoFields comps
  let gsa := googleStreetAddress f
  let original_parts := (splitOnChar ',' original).map stripPy
  let preserved := original_parts.filter
    (fun part => !partReplaced f gsa part && part ≠ [])
  let address_parts :=
    preserved ++
    (if gsa ≠ [] then [gsa] else []) ++
    (if f.subpremise ≠ [] then ["Room ".data ++ f.subpremise] else []) ++
    (if f.postal_code ≠ [] ∧ f.locality ≠ [] then [f.postal_code ++ ' ' :: f.locality]
     else if f.locality ≠ [] then [f.locality] else []) ++
    (if f.country ≠ [] then [upperStr f.country] else [])
  if address_parts = [] then original
  else joinWith (", ".data) address_parts

/-- ' '.join(address.split()) (mini_international line 18). -/
def wsNormalize (s : List Char) : List Char := joinSpace (splitWs s)

/-- mini_international.normalize_address_with_google_maps (lines 13-67), with
the geocoder call abstracted as a `GeoOutcome`.  Returns the address to store
and the extracted country code. -/
def normalize_address_with_google_maps (hasApiKey : Bool) (address : List Char)
    (geo : GeoOutcome) : List Char × Option (List Char) :=
  if !hasApiKey ∨ address = [] then (address, none)
  else
    let cleaned := wsNormalize address
    match geo with
    | GeoOutcome.httpError => (cleaned, none)
    | GeoOutcome.noResult => (cleaned, none)
    | GeoOutcome.ok comps =>
      match extractCountryCode comps with
      | some cc =>
        if cc = "KR".data then (cleaned, some cc)
        else (reconstruct_address_from_components comps cleaned, some cc)
      | none => (reconstruct_address_from_components comps cleaned, none)

/-! ## Specification-side predicates and concrete instances -/

/-- A list of words is "good" when every word is non-empty and free of
whitespace characters. -/
def GoodWords (ws : List (List Char)) : Prop :=
  ∀ w ∈ ws, w ≠ [] ∧ ∀ c ∈ w, isWs c = false

/-- The character preceding the current scan position: the last character of
the consumed prefix, or the character before the whole scan when the prefix
is empty. -/
def lastOr (prev : Option Char) (pre : List Char) : Option Char :=
  match pre.getLast? with
  | some c => some c
  | none => prev

/-- The specification's "standalone word-boundary case-insensitive KR token":
somewhere in the string stand two letters reading `KR` case-insensitively,
with a word boundary (string edge or non-word character) on each side. -/
def KRTokenSpec (s : List Char) : Prop :=
  ∃ pre a b post, s = pre ++ a :: b :: post ∧
    toUpperAscii a = 'K' ∧ toUpperAscii b = 'R' ∧
    boundaryBefore pre.getLast? = true ∧ boundaryAfter post = true

/-- The mixed order of the C1 counterexample: order 100 has one digital-tagged
line item and one plain physical line item. -/
def c1Rows : List Row :=
  [⟨"100".data, "A[디지털]".data, none, []⟩,
   ⟨"100".data, "B".data, none, []⟩]

/-- The row of `c1Rows` carrying the physical (untagged) item. -/
def c1PhysicalRow : Row := ⟨"100".data, "B".data, none, []⟩

/-- A raw SKU whose only digital tag stands after the first hyphen. -/
def c2CounterRaw : List Char := "ABC-[디지털]".data

/-- A composite SKU every component of which contains the digital tag but
whose first three components do not end with it. -/
def c3CounterSku : List Char :=
  "A[디지털]X/B[디지털]X/C[디지털]X/D[디지털]".data

/-- An address with a redundant double space, for the C5 counterexample. -/
def c5Addr : List Char := "A  B".data

/-- A geocoder component list resolving to country code KR. -/
def c5KrComps : List AddrComponent :=
  [⟨["country".data], "South Korea".data, "KR".data⟩]

/-- The concrete order dataframe of the C6 witness: a domestic physical row,
an international physical row, and a reservation-tagged row. -/
def c6Df : List Row :=
  [⟨"1".data, "P1".data, some "서울시 강남구 테스트로 1".data, "김철수".data⟩,
   ⟨"2".data, "P2".data, some "12 Baker Street London United Kingdom".data,
     "John Smith".data⟩,
   ⟨"3".data, "R1[예약상품]".data, some "서울시 송파구".data, "이영희".data⟩]

def c6DomesticRow : Row :=
  ⟨"1".data, "P1".data, some "서울시 강남구 테스트로 1".data, "김철수".data⟩

def c6IntlRow : Row :=
  ⟨"2".data, "P2".data, some "12 Baker Street London United Kingdom".data,
    "John Smith".data⟩

/-- Two tracking rows for the same order D500 with different tracking
numbers, for the C7 witness. -/
def c7Rows : List TrackRow :=
  [⟨"D500".data, "T111".data, "12 Main Street Anytown".data, "US".data⟩,
   ⟨"D500".data, "T222".data, "12 Main Street Anytown".data, "US".data⟩]

/-- A row with an empty tracking number, skipped by the batch build. -/
def c7SkipRow : TrackRow := ⟨"D500".data, [], [], []⟩

/-- The key under which order D500 of the dok site is stored. -/
def c7Key : List Char := "dok_500".data

/-- The record the batch must hold for D500 (the later row wins). -/
def c7ExpectedRecord : TrackRecord :=
  { order_id := "500".data
    tracking_number := "T222".data
    carrier_code := "EMS".data
    carrier_name := "EMS".data
    site := "dok".data
    original_order := "D500".data
    shipping_type := "해외".data }

/-! ## Helper lemmas about the string machinery -/

theorem isSubstr_iff_infix {needle hay : List Char} :
    isSubstr needle hay = true ↔ needle <:+: hay := by
  induction hay with
  | nil =>
    simp only [isSubstr, List.isEmpty_iff, List.infix_nil]
  | cons c t ih =>
    simp only [isSubstr, Bool.or_eq_true, List.isPrefixOf_iff_prefix, ih,
      List.infix_cons_iff]

theorem containsCharB_iff_mem {c : Char} {s : List Char} :
    containsCharB c s = true ↔ c ∈ s := by
  simp only [containsCharB, List.any_eq_true, decide_eq_true_eq]
  constructor
  · rintro ⟨d, hd, rfl⟩; exact hd
  · intro h; exact ⟨c, h, rfl⟩

theorem endsWithB_iff_suffix {s t : List Char} :
    endsWithB s t = true ↔ t <:+ s := by
  simp only [endsWithB, List.isSuffixOf_iff_suffix]

theorem takeBeforeChar_eq_self {c : Char} {s : List Char} (h : c ∉ s) :
    takeBeforeChar c s = s := by
  induction s with
  | nil => rfl
  | cons a t ih =>
    have ha : a ≠ c := fun hac => h (hac ▸ List.mem_cons_self a t)
    simp only [takeBeforeChar, List.takeWhile_cons, ha, decide_eq_true_eq,
      if_pos ha]
    exact congrArg (a :: ·) (ih (fun hc => h (List.mem_cons_of_mem a hc)))

theorem takeBeforeChar_append {c : Char} {s t : List Char} (h : c ∉ s) :
    takeBeforeChar c (s ++ c :: t) = s := by
  induction s with
  | nil => simp [takeBeforeChar, List.takeWhile_cons]
  | cons a s' ih =>
    have ha : a ≠ c := fun hac => h (hac ▸ List.mem_cons_self a s')
    simp only [List.cons_append, takeBeforeChar, List.takeWhile_cons, ha,
      decide_eq_true_eq, if_pos ha]
    exact congrArg (a :: ·) (ih (fun hc => h (List.mem_cons_of_mem a hc)))

theorem splitOnChar_structure (c : Char) (s : List Char) :
    ∃ h t, splitOnChar c s = h :: t ∧ h <+: s ∧ ∀ x ∈ t, x <:+: s := by
  induction s with
  | nil => exact ⟨[], [], rfl, List.nil_prefix, by simp⟩
  | cons a xs ih =>
    obtain ⟨h, t, heq, hpre, hrest⟩ := ih
    by_cases hac : a = c
    · refine ⟨[], h :: t, ?_, List.nil_prefix, ?_⟩
      · simp [splitOnChar, heq, hac]
      · intro x hx
        rcases List.mem_cons.mp hx with rfl | hx
        · exact (hpre.isInfix).trans (List.infix_cons (List.infix_refl xs))
        · exact (hrest x hx).trans (List.infix_cons (List.infix_refl xs))
    · refine ⟨a :: h, t, ?_, ?_, ?_⟩
      · simp [splitOnChar, heq, hac]
      · exact List.cons_prefix_cons.mpr ⟨rfl, hpre⟩
      · intro x hx
        exact (hrest x hx).trans (List.infix_cons (List.infix_refl xs))

theorem mem_splitOnChar_infix {c : Char} {s comp : List Char}
    (h : comp ∈ splitOnChar c s) : comp <:+: s := by
  obtain ⟨hd, tl, heq, hpre, hrest⟩ := splitOnChar_structure c s
  rw [heq] at h
  rcases List.mem_cons.mp h with rfl | h
  · exact hpre.isInfix
  · exact hrest comp h

theorem takeWhile_append_all {p : Char → Bool} {w r : List Char}
    (h : ∀ c ∈ w, p c = true) : (w ++ r).takeWhile p = w ++ r.takeWhile p := by
  induction w with
  | nil => rfl
  | cons a w' ih =>
    have ha : p a = true := h a (List.mem_cons_self a w')
    simp only [List.cons_append, List.takeWhile_cons, ha, if_true]
    exact congrArg (a :: ·) (ih (fun c hc => h c (List.mem_cons_of_mem a hc)))

theorem dropWhile_append_all {p : Char → Bool} {w r : List Char}
    (h : ∀ c ∈ w, p c = true) : (w ++ r).dropWhile p = r.dropWhile p := by
  induction w with
  | nil => rfl
  | cons a w' ih =>
    have ha : p a = true := h a (List.mem_cons_self a w')
    simp only [List.cons_append, List.dropWhile_cons, ha, if_true]
    exact ih (fun c hc => h c (List.mem_cons_of_mem a hc))

theorem splitWsAcc_ne_nil {cs : List Char} :
    ∀ {cur : List Char}, cur ≠ [] →
      splitWsAcc cur cs
        = (cur.reverse ++ cs.takeWhile (fun d => !isWs d))
            :: splitWs (cs.dropWhile (fun d => !isWs d)) := by
  induction cs with
  | nil =>
    intro cur hc
    simp [splitWsAcc, splitWs, List.isEmpty_iff, hc]
  | cons c cs' ih =>
    intro cur hc
    by_cases hw : isWs c
    · rw [splitWsAcc, if_pos hw, if_neg (by simpa [List.isEmpty_iff] using hc)]
      rw [List.takeWhile_cons, if_neg (by simp [hw]),
        List.dropWhile_cons, if_neg (by simp [hw])]
      have : splitWs (c :: cs') = splitWs cs' := by
        simp [splitWs, splitWsAcc, hw, List.isEmpty_iff]
      rw [this]
      simp [splitWs, splitWsAcc, hw, List.isEmpty_iff]
    · rw [splitWsAcc, if_neg hw]
      rw [ih (by simp)]
      rw [List.takeWhile_cons, if_pos (by simp [hw]),
        List.dropWhile_cons, if_pos (by simp [hw])]
      simp

theorem splitWs_nil : splitWs [] = [] := rfl

theorem splitWs_cons_of_ws {c : Char} {cs : List Char} (h : isWs c = true) :
    splitWs (c :: cs) = splitWs cs := by
  simp [splitWs, splitWsAcc, h]

theorem splitWs_cons_of_not_ws {c : Char} {cs : List Char} (h : isWs c = false) :
    splitWs (c :: cs)
      = (c :: cs.takeWhile (fun d => !isWs d))
          :: splitWs (cs.dropWhile (fun d => !isWs d)) := by
  show splitWsAcc [] (c :: cs) = _
  rw [splitWsAcc, if_neg (by simp [h])]
  rw [splitWsAcc_ne_nil (by simp)]
  simp

theorem collapseWsFlag_true {cs : List Char} :
    collapseWsFlag true cs = collapseWs (cs.dropWhile isWs) := by
  induction cs with
  | nil => rfl
  | cons c cs' ih =>
    by_cases hw : isWs c
    · rw [collapseWsFlag, if_pos hw, if_pos rfl, ih,
        List.dropWhile_cons, if_pos hw]
    · rw [collapseWsFlag, if_neg hw, List.dropWhile_cons, if_neg hw]
      show _ = collapseWsFlag false (c :: cs')
      rw [collapseWsFlag, if_neg hw]

theorem collapseWs_nil : collapseWs [] = [] := rfl

theorem collapseWs_cons_of_ws {c : Char} {cs : List Char} (h : isWs c = true) :
    collapseWs (c :: cs) = ' ' :: collapseWs (cs.dropWhile isWs) := by
  show collapseWsFlag false (c :: cs) = _
  rw [collapseWsFlag, if_pos h, if_neg (by simp), collapseWsFlag_true]

theorem collapseWs_cons_of_not_ws {c : Char} {cs : List Char} (h : isWs c = false) :
    collapseWs (c :: cs) = c :: collapseWs cs := by
  show collapseWsFlag false (c :: cs) = _
  rw [collapseWsFlag, if_neg (by simp [h])]
  rfl

theorem splitWs_good : ∀ s : List Char, GoodWords (splitWs s)
  | [] => by intro w hw; rw [splitWs_nil] at hw; simp at hw
  | c :: cs => by
    intro w hw
    by_cases hc : isWs c
    · rw [splitWs_cons_of_ws hc] at hw
      exact splitWs_good cs w hw
    · have hc' : isWs c = false := by simpa using hc
      rw [splitWs_cons_of_not_ws hc'] at hw
      rcases List.mem_cons.mp hw with rfl | hw
      · refine ⟨by simp, ?_⟩
        intro d hd
        rcases List.mem_cons.mp hd with rfl | hd
        · exact hc'
        · have := List.mem_takeWhile_imp hd
          simpa using this
      · exact splitWs_good (cs.dropWhile (fun d => !isWs d)) w hw
termination_by s => s.length
decreasing_by
  · simp only [List.length_cons]; omega
  · simp only [List.length_cons]
    have h := List.Sublist.length_le (List.dropWhile_sublist (l := cs) (p := fun d => !isWs d))
    omega

theorem splitWs_join {ws : List (List Char)} (h : GoodWords ws) :
    splitWs (joinSpace ws) = ws := by
  induction ws with
  | nil => simp [joinSpace, joinWith, splitWs, splitWsAcc]
  | cons w ws' ih =>
    obtain ⟨hne, hgood⟩ := h w (List.mem_cons_self w ws')
    have hgood' : ∀ c ∈ w, (fun d => !isWs d) c = true := by
      intro c hc; simp [hgood c hc]
    obtain ⟨a, w', rfl⟩ : ∃ a w', w = a :: w' := by
      cases w with
      | nil => exact absurd rfl hne
      | cons a w' => exact ⟨a, w', rfl⟩
    have ha : isWs a = false := hgood a (List.mem_cons_self a w')
    have hw' : ∀ c ∈ w', (fun d => !isWs d) c = true := by
      intro c hc; exact hgood' c (List.mem_cons_of_mem a hc)
    cases ws' with
    | nil =>
      show splitWs (a :: w') = [a :: w']
      rw [splitWs_cons_of_not_ws ha]
      have ht : w'.takeWhile (fun d => !isWs d) = w' := by
        have := takeWhile_append_all (r := []) hw'
        simpa using this
      have hd : w'.dropWhile (fun d => !isWs d) = [] := by
        have := dropWhile_append_all (r := []) hw'
        simpa using this
      rw [ht, hd, splitWs_nil]
    | cons v ws'' =>
      have hrest : GoodWords (v :: ws'') := by
        intro x hx; exact h x (List.mem_cons_of_mem _ hx)
      have hjoin : joinSpace ((a :: w') :: v :: ws'')
          = a :: (w' ++ ' ' :: joinSpace (v :: ws'')) := by
        show (a :: w') ++ [' '] ++ joinSpace (v :: ws'') = _
        simp
      rw [hjoin, splitWs_cons_of_not_ws ha]
      have ht : (w' ++ ' ' :: joinSpace (v :: ws'')).takeWhile (fun d => !isWs d) = w' := by
        rw [takeWhile_append_all hw']
        simp [List.takeWhile_cons, isWs]
      have hd : (w' ++ ' ' :: joinSpace (v :: ws'')).dropWhile (fun d => !isWs d)
          = ' ' :: joinSpace (v :: ws'') := by
        rw [dropWhile_append_all hw']
        simp [List.dropWhile_cons, isWs]
      rw [ht, hd]
      have hstep : splitWs (' ' :: joinSpace (v :: ws''))
          = splitWs (joinSpace (v :: ws'')) :=
        splitWs_cons_of_ws (by decide)
      rw [hstep, ih hrest]

theorem collapseWs_append_all {w r : List Char} (h : ∀ c ∈ w, isWs c = false) :
    collapseWs (w ++ r) = w ++ collapseWs r := by
  induction w with
  | nil => rfl
  | cons a w' ih =>
    have ha : isWs a = false := h a (List.mem_cons_self a w')
    rw [List.cons_append, collapseWs_cons_of_not_ws ha]
    exact congrArg (a :: ·) (ih (fun c hc => h c (List.mem_cons_of_mem a hc)))

theorem joinSpace_cons_cons (w v : List Char) (ws : List (List Char)) :
    joinSpace (w :: v :: ws) = w ++ ' ' :: joinSpace (v :: ws) := by
  show w ++ [' '] ++ joinWith [' '] (v :: ws) = _
  simp [joinSpace]

theorem joinSpace_head {v : List Char} {l : List (List Char)} {a : Char}
    {v' : List Char} (hv : v = a :: v') :
    ∃ tail, joinSpace (v :: l) = a :: tail := by
  cases l with
  | nil => exact ⟨v', by simp [joinSpace, joinWith, hv]⟩
  | cons u us =>
    exact ⟨v' ++ ' ' :: joinSpace (u :: us), by
      rw [joinSpace_cons_cons, hv]; simp⟩

theorem collapseWs_join {ws : List (List Char)} (h : GoodWords ws) :
    collapseWs (joinSpace ws) = joinSpace ws := by
  induction ws with
  | nil => simp [joinSpace, joinWith, collapseWs, collapseWsFlag]
  | cons w ws' ih =>
    obtain ⟨hne, hgood⟩ := h w (List.mem_cons_self w ws')
    cases ws' with
    | nil =>
      show collapseWs w = w
      have := collapseWs_append_all (r := []) hgood
      simpa [collapseWs_nil] using this
    | cons v ws'' =>
      have hrest : GoodWords (v :: ws'') := by
        intro x hx; exact h x (List.mem_cons_of_mem _ hx)
      obtain ⟨hvne, hvgood⟩ := hrest v (List.mem_cons_self v ws'')
      obtain ⟨a, v', rfl⟩ : ∃ a v', v = a :: v' := by
        cases v with
        | nil => exact absurd rfl hvne
        | cons a v' => exact ⟨a, v', rfl⟩
      obtain ⟨tail, htail⟩ := joinSpace_head (l := ws'') (rfl :
        (a :: v') = a :: v')
      rw [joinSpace_cons_cons, collapseWs_append_all hgood,
        collapseWs_cons_of_ws (by decide)]
      rw [htail, List.dropWhile_cons,
        if_neg (by simp [hvgood a (List.mem_cons_self a v')]), ← htail, ih hrest]

theorem joinSpace_last {w : List Char} {ws : List (List Char)}
    (h : GoodWords (w :: ws)) :
    ∃ t a, joinSpace (w :: ws) = t ++ [a] ∧ isWs a = false := by
  induction ws generalizing w with
  | nil =>
    obtain ⟨hne, hgood⟩ := h w (List.mem_cons_self w [])
    obtain ⟨a, t', hrev⟩ : ∃ a t', w.reverse = a :: t' := by
      cases hw : w.reverse with
      | nil => exact absurd (by simpa using congrArg List.reverse hw) hne
      | cons a t' => exact ⟨a, t', rfl⟩
    refine ⟨t'.reverse, a, ?_, ?_⟩
    · show w = t'.reverse ++ [a]
      have := congrArg List.reverse hrev
      simpa using this
    · refine hgood a ?_
      have : a ∈ w.reverse := hrev ▸ List.mem_cons_self a t'
      simpa using this
  | cons v ws' ih =>
    have hrest : GoodWords (v :: ws') := by
      intro x hx; exact h x (List.mem_cons_of_mem _ hx)
    obtain ⟨t, a, heq, hna⟩ := ih hrest
    refine ⟨w ++ ' ' :: t, a, ?_, hna⟩
    rw [joinSpace_cons_cons, heq]
    simp

theorem stripPy_join {ws : List (List Char)} (h : GoodWords ws) :
    stripPy (joinSpace ws) = joinSpace ws := by
  cases ws with
  | nil => rfl
  | cons w ws' =>
    obtain ⟨hne, hgood⟩ := h w (List.mem_cons_self w ws')
    obtain ⟨a, w', rfl⟩ : ∃ a w', w = a :: w' := by
      cases w with
      | nil => exact absurd rfl hne
      | cons a w' => exact ⟨a, w', rfl⟩
    obtain ⟨tail, htail⟩ := joinSpace_head (l := ws') (rfl : (a :: w') = a :: w')
    obtain ⟨t, b, heq, hnb⟩ := joinSpace_last h
    have ha : isWs a = false := hgood a (List.mem_cons_self a w')
    unfold stripPy
    rw [htail, List.dropWhile_cons, if_neg (by simp [ha]), ← htail, heq]
    have hrev : (t ++ [b]).reverse = b :: t.reverse := by simp
    rw [hrev, List.dropWhile_cons, if_neg (by simp [hnb])]
    simp

/-! dedupAdj lemmas -/

theorem dedupAdjFrom_subset {l : List (List Char)} {prev : List Char} :
    ∀ x ∈ dedupAdjFrom prev l, x ∈ l := by
  induction l generalizing prev with
  | nil => intro x hx; simp [dedupAdjFrom] at hx
  | cons w ws ih =>
    intro x hx
    rw [dedupAdjFrom] at hx
    by_cases hw : w = prev
    · rw [if_pos hw] at hx
      exact List.mem_cons_of_mem w (ih x hx)
    · rw [if_neg hw] at hx
      rcases List.mem_cons.mp hx with rfl | hx
      · exact List.mem_cons_self x ws
      · exact List.mem_cons_of_mem w (ih x hx)

theorem dedupAdj_subset {l : List (List Char)} :
    ∀ x ∈ dedupAdj l, x ∈ l := by
  cases l with
  | nil => intro x hx; simp [dedupAdj] at hx
  | cons w ws =>
    intro x hx
    rw [dedupAdj] at hx
    rcases List.mem_cons.mp hx with rfl | hx
    · exact List.mem_cons_self x ws
    · exact List.mem_cons_of_mem w (dedupAdjFrom_subset x hx)

theorem dedupAdjFrom_chain (l : List (List Char)) :
    ∀ prev, List.Chain' (fun a b => a ≠ b) (prev :: dedupAdjFrom prev l) := by
  induction l with
  | nil => intro prev; simp [dedupAdjFrom]
  | cons w ws ih =>
    intro prev
    rw [dedupAdjFrom]
    by_cases hw : w = prev
    · rw [if_pos hw]; exact ih prev
    · rw [if_neg hw]
      exact List.chain'_cons.mpr ⟨fun hc => hw hc.symm, ih w⟩

theorem dedupAdj_chain (l : List (List Char)) :
    List.Chain' (fun a b => a ≠ b) (dedupAdj l) := by
  cases l with
  | nil => simp [dedupAdj]
  | cons w ws => exact dedupAdjFrom_chain ws w

theorem dedupAdjFrom_of_chain {l : List (List Char)} {prev : List Char}
    (h : List.Chain' (fun a b => a ≠ b) (prev :: l)) :
    dedupAdjFrom prev l = l := by
  induction l generalizing prev with
  | nil => rfl
  | cons w ws ih =>
    obtain ⟨hpw, hrest⟩ := List.chain'_cons.mp h
    rw [dedupAdjFrom, if_neg (fun hc => hpw hc.symm)]
    exact congrArg (w :: ·) (ih hrest)

theorem dedupAdj_of_chain {l : List (List Char)}
    (h : List.Chain' (fun a b => a ≠ b) l) : dedupAdj l = l := by
  cases l with
  | nil => rfl
  | cons w ws =>
    rw [dedupAdj]
    exact congrArg (w :: ·) (dedupAdjFrom_of_chain h)

/-! ## Tracking-map lemmas (for C7) -/

theorem buildTrackingMap_append_singleton (rows : List TrackRow) (r : TrackRow) :
    buildTrackingMap (rows ++ [r]) = trackStep (buildTrackingMap rows) r := by
  unfold buildTrackingMap
  rw [List.foldl_append]
  rfl

theorem validEntry_of_empty {row : TrackRow}
    (h : stripPy row.orderNo = [] ∨ stripPy row.tracking = []) :
    validEntry row = none := by
  unfold validEntry
  rcases h with h | h
  · rw [if_pos (Or.inl h)]
  · rw [if_pos (Or.inr (Or.inl h))]

theorem validEntry_of_unparsed {row : TrackRow}
    (h : parse_order_number (stripPy row.orderNo) = none) :
    validEntry row = none := by
  simp only [validEntry, h]
  split
  · rfl
  · rfl

theorem trackStep_none {acc : List (List Char × TrackRecord)} {row : TrackRow}
    (h : validEntry row = none) : trackStep acc row = acc := by
  unfold trackStep
  rw [h]

theorem insertOverwrite_cons_ne {p : List Char × TrackRecord}
    {m : List (List Char × TrackRecord)} {k : List Char} {v : TrackRecord}
    (h : p.1 ≠ k) :
    insertOverwrite (p :: m) k v = p :: insertOverwrite m k v := by
  unfold insertOverwrite
  by_cases hm : m.any (fun q => q.1 = k) = true
  · rw [if_pos (by simp [List.any_cons, hm]), if_pos hm]
    simp [h]
  · rw [if_neg (by simp [List.any_cons, hm, h]), if_neg hm]
    simp

theorem lookupKey_cons_ne {p : List Char × TrackRecord}
    {m : List (List Char × TrackRecord)} {k : List Char} (h : p.1 ≠ k) :
    lookupKey k (p :: m) = lookupKey k m := by
  simp [lookupKey, List.findSome?_cons, h]

theorem insertOverwrite_cons_eq {p : List Char × TrackRecord}
    {m : List (List Char × TrackRecord)} {k : List Char} {v : TrackRecord}
    (h : p.1 = k) :
    insertOverwrite (p :: m) k v
      = (k, v) :: m.map (fun q => if q.1 = k then (k, v) else q) := by
  unfold insertOverwrite
  rw [if_pos (by simp [List.any_cons, h])]
  simp [h]

theorem lookupKey_insertOverwrite_self (m : List (List Char × TrackRecord))
    (k : List Char) (v : TrackRecord) :
    lookupKey k (insertOverwrite m k v) = some v := by
  induction m with
  | nil => simp [insertOverwrite, lookupKey]
  | cons p m' ih =>
    by_cases hpk : p.1 = k
    · rw [insertOverwrite_cons_eq hpk]
      simp [lookupKey, List.findSome?_cons]
    · rw [insertOverwrite_cons_ne hpk, lookupKey_cons_ne hpk]
      exact ih

theorem lookupKey_map_overwrite {m : List (List Char × TrackRecord)}
    {k kq : List Char} (h : kq ≠ k) (v : TrackRecord) :
    lookupKey kq (m.map (fun q => if q.1 = k then (k, v) else q))
      = lookupKey kq m := by
  induction m with
  | nil => rfl
  | cons q m' ih =>
    by_cases hq : q.1 = k
    · rw [List.map_cons, if_pos hq,
        lookupKey_cons_ne (show ((k, v) : List Char × TrackRecord).1 ≠ kq from
          fun hc => h hc.symm),
        lookupKey_cons_ne (hq ▸ (fun hc => h hc.symm : k ≠ kq))]
      exact ih
    · rw [List.map_cons, if_neg hq]
      by_cases hqq : q.1 = kq
      · simp [lookupKey, List.findSome?_cons, hqq]
      · rw [lookupKey_cons_ne hqq, lookupKey_cons_ne hqq]
        exact ih

theorem lookupKey_insertOverwrite_ne (m : List (List Char × TrackRecord))
    {k kq : List Char} (h : kq ≠ k) (v : TrackRecord) :
    lookupKey kq (insertOverwrite m k v) = lookupKey kq m := by
  have h' : k ≠ kq := fun hc => h hc.symm
  induction m with
  | nil =>
    simp [insertOverwrite, lookupKey, List.findSome?_cons, h']
  | cons p m' ih =>
    by_cases hpk : p.1 = k
    · rw [insertOverwrite_cons_eq hpk,
        lookupKey_cons_ne (show ((k, v) : List Char × TrackRecord).1 ≠ kq from
          fun hc => h hc.symm),
        lookupKey_map_overwrite h,
        lookupKey_cons_ne (hpk ▸ (fun hc => h hc.symm : k ≠ kq))]
    · rw [insertOverwrite_cons_ne hpk]
      by_cases hqq : p.1 = kq
      · simp [lookupKey, List.findSome?_cons, hqq]
      · rw [lookupKey_cons_ne hqq, lookupKey_cons_ne hqq]
        exact ih

theorem insertOverwrite_keys (m : List (List Char × TrackRecord))
    (k : List Char) (v : TrackRecord) :
    (insertOverwrite m k v).map Prod.fst
      = if m.any (fun q => q.1 = k) then m.map Prod.fst
        else m.map Prod.fst ++ [k] := by
  unfold insertOverwrite
  by_cases hm : m.any (fun q => q.1 = k) = true
  · rw [if_pos hm, if_pos hm, List.map_map]
    apply List.map_congr_left
    intro q _
    by_cases hq : q.1 = k
    · simp [hq]
    · simp [hq]
  · rw [if_neg hm, if_neg hm, List.map_append]
    rfl

theorem insertOverwrite_keys_nodup {m : List (List Char × TrackRecord)}
    {k : List Char} {v : TrackRecord} (h : (m.map Prod.fst).Nodup) :
    ((insertOverwrite m k v).map Prod.fst).Nodup := by
  rw [insertOverwrite_keys]
  by_cases hm : m.any (fun q => q.1 = k) = true
  · rw [if_pos hm]; exact h
  · rw [if_neg hm]
    have hk : k ∉ m.map Prod.fst := by
      intro hmem
      obtain ⟨q, hq, hfst⟩ := List.mem_map.mp hmem
      exact hm (List.any_eq_true.mpr ⟨q, hq, by simp [hfst]⟩)
    simp [List.nodup_append, h, hk]

theorem buildTrackingMap_keys_nodup (rows : List TrackRow) :
    ((buildTrackingMap rows).map Prod.fst).Nodup := by
  suffices h : ∀ acc : List (List Char × TrackRecord),
      (acc.map Prod.fst).Nodup →
      ((rows.foldl trackStep acc).map Prod.fst).Nodup by
    exact h [] (by simp)
  induction rows with
  | nil => intro acc h; exact h
  | cons r rows' ih =>
    intro acc h
    rw [List.foldl_cons]
    apply ih
    unfold trackStep
    cases hv : validEntry r with
    | none => exact h
    | some kv => exact insertOverwrite_keys_nodup h

theorem lastValidEntry_append_singleton (rows : List TrackRow) (r : TrackRow)
    (k : List Char) :
    lastValidEntry (rows ++ [r]) k
      = match validEntry r with
        | some kv => if kv.1 = k then some kv.2 else lastValidEntry rows k
        | none => lastValidEntry rows k := by
  unfold lastValidEntry
  rw [List.reverse_append]
  cases hv : validEntry r with
  | none => simp [List.findSome?_cons, hv]
  | some kv =>
    by_cases hk : kv.1 = k
    · simp [List.findSome?_cons, hv, hk]
    · simp [List.findSome?_cons, hv, hk]

theorem lookup_buildTrackingMap (rows : List TrackRow) (k : List Char) :
    lookupKey k (buildTrackingMap rows) = lastValidEntry rows k := by
  induction rows using List.reverseRecOn with
  | nil => rfl
  | append_singleton rows' r ih =>
    rw [buildTrackingMap_append_singleton, lastValidEntry_append_singleton]
    unfold trackStep
    cases hv : validEntry r with
    | none => exact ih
    | some kv =>
      obtain ⟨ka, va⟩ := kv
      show lookupKey k (insertOverwrite (buildTrackingMap rows') ka va)
        = if ka = k then some va else lastValidEntry rows' k
      by_cases hk : ka = k
      · rw [if_pos hk, hk]
        exact lookupKey_insertOverwrite_self (buildTrackingMap rows') k va
      · rw [if_neg hk,
          lookupKey_insertOverwrite_ne _ (fun hc => hk hc.symm) va]
        exact ih

/-! ## KR-token scanner lemmas (for C4) -/

theorem lastOr_none (pre : List Char) : lastOr none pre = pre.getLast? := by
  unfold lastOr
  cases pre.getLast? <;> rfl

theorem lastOr_cons (prev : Option Char) (a : Char) (l : List Char) :
    lastOr prev (a :: l) = lastOr (some a) l := by
  unfold lastOr
  cases l with
  | nil => rfl
  | cons x xs =>
    rw [List.getLast?_cons_cons]
    cases h : (x :: xs).getLast? with
    | none => exact absurd (List.getLast?_eq_none_iff.mp h) (by simp)
    | some c => rfl

theorem krSearch_iff (s : List Char) : ∀ prev : Option Char,
    krSearch prev s = true ↔
      ∃ pre a b post, s = pre ++ a :: b :: post ∧
        toUpperAscii a = 'K' ∧ toUpperAscii b = 'R' ∧
        boundaryBefore (lastOr prev pre) = true ∧ boundaryAfter post = true := by
  induction s with
  | nil =>
    intro prev
    constructor
    · intro h; simp [krSearch] at h
    · rintro ⟨pre, a, b, post, heq, -⟩
      have := congrArg List.length heq
      simp at this
      omega
  | cons c₁ tail ih =>
    intro prev
    cases tail with
    | nil =>
      constructor
      · intro h; simp [krSearch] at h
      · rintro ⟨pre, a, b, post, heq, -⟩
        have := congrArg List.length heq
        simp at this
        omega
    | cons c₂ rest =>
      constructor
      · intro h
        rcases Bool.or_eq_true _ _ |>.mp h with hhead | hrec
        · have h1 := Bool.and_eq_true _ _ |>.mp hhead
          have h2 := Bool.and_eq_true _ _ |>.mp h1.1
          have h3 := Bool.and_eq_true _ _ |>.mp h2.1
          refine ⟨[], c₁, c₂, rest, rfl, ?_, ?_, ?_, h1.2⟩
          · exact of_decide_eq_true h3.2
          · exact of_decide_eq_true h2.2
          · simpa [lastOr] using h3.1
        · obtain ⟨pre, a, b, post, heq, hk, hr, hb, ha⟩ := (ih (some c₁)).mp hrec
          refine ⟨c₁ :: pre, a, b, post, ?_, hk, hr, ?_, ha⟩
          · rw [List.cons_append, ← heq]
          · rw [lastOr_cons]; exact hb
      · rintro ⟨pre, a, b, post, heq, hk, hr, hb, ha⟩
        cases pre with
        | nil =>
          simp only [List.nil_append, List.cons.injEq] at heq
          obtain ⟨rfl, rfl, rfl⟩ := heq
          apply Bool.or_eq_true _ _ |>.mpr
          left
          have hb' : boundaryBefore prev = true := by
            simpa [lastOr] using hb
          simp [hb', hk, hr, ha]
        | cons p pre' =>
          simp only [List.cons_append, List.cons.injEq] at heq
          obtain ⟨rfl, heq'⟩ := heq
          apply Bool.or_eq_true _ _ |>.mpr
          right
          apply (ih (some c₁)).mpr
          refine ⟨pre', a, b, post, heq', hk, hr, ?_, ha⟩
          rw [lastOr_cons] at hb
          exact hb

theorem hasStandaloneKR_iff (s : List Char) :
    hasStandaloneKR s = true ↔ KRTokenSpec s := by
  unfold hasStandaloneKR KRTokenSpec
  rw [krSearch_iff]
  constructor
  · rintro ⟨pre, a, b, post, heq, hk, hr, hb, ha⟩
    exact ⟨pre, a, b, post, heq, hk, hr, by rwa [lastOr_none] at hb, ha⟩
  · rintro ⟨pre, a, b, post, heq, hk, hr, hb, ha⟩
    exact ⟨pre, a, b, post, heq, hk, hr, by rwa [lastOr_none], ha⟩

theorem isKoreanAddr_eq_or (s : List Char) :
    isKoreanAddr s = (hasHangul s || hasStandaloneKR s || hasKoreaKeyword s) := by
  unfold isKoreanAddr
  cases h1 : hasHangul s <;> cases h2 : hasStandaloneKR s <;>
    cases h3 : hasKoreaKeyword s <;> simp [h1, h2, h3]

/-! ## Claim theorems -/

/-- C1 counterexample: order 100 mixes a digital-tagged item with a physical
(untagged, non-reservation, non-B2B) item, yet its order id is in the list the
active dok digital status-change path transitions to `shipped`; the claim's
purity exclusion does not hold on the code. -/
theorem c1_counterexample :
    ("100".data) ∈ dokDigitalStatusOrderIds c1Rows
    ∧ c1PhysicalRow ∈ c1Rows
    ∧ c1PhysicalRow.orderId = ("100".data)
    ∧ isSubstr digTag c1PhysicalRow.sku = false := by
  refine ⟨by decide, by decide, by decide, by decide⟩

/-- C1 (amended): the active dok digital status-change path transitions an
order to `shipped` iff at least one of its line items carries the digital tag;
no mixed-order purity exclusion is applied (that logic exists only in the
unused legacy routine). -/
theorem c1_digital_status_membership :
    ∀ (df : List Row) (oid : List Char),
      oid ∈ dokDigitalStatusOrderIds df ↔
        ∃ r ∈ df, isSubstr digTag r.sku = true ∧ r.orderId = oid := by
  intro df oid
  simp only [dokDigitalStatusOrderIds, List.mem_map, List.mem_filter]
  constructor
  · rintro ⟨r, ⟨hr, hd⟩, rfl⟩
    exact ⟨r, hr, hd, rfl⟩
  · rintro ⟨r, hr, hd, rfl⟩
    exact ⟨r, ⟨hr, hd⟩, rfl⟩

/-- C2 counterexample: the digital tag standing after the first hyphen is a
substring of the full raw SKU, yet the bucket-membership test used downstream
(which runs on the hyphen-truncated status SKU) does not see it. -/
theorem c2_counterexample :
    tagMemberSpecClaim digTag c2CounterRaw = true
    ∧ bucketTagMember digTag c2CounterRaw = false := ⟨by decide, by decide⟩

/-- C2 (amended): tag membership is decided by literal substring tests against
the hyphen-truncated status SKU: content after the first hyphen never changes
membership, any `/`-component of the status SKU carrying a tag makes the SKU
carry it, and a tag standing before the first hyphen is preserved
(`ABC[디지털]-2024` and `ABC[디지털]` both count as digital). -/
theorem c2_status_sku_tags :
    (∀ tag s t : List Char, '-' ∉ s →
        bucketTagMember tag (s ++ '-' :: t) = bucketTagMember tag s)
    ∧ (∀ tag raw comp : List Char,
        comp ∈ splitOnChar '/' (skuForStatus raw) → isSubstr tag comp = true →
        bucketTagMember tag raw = true)
    ∧ bucketTagMember digTag ("ABC[디지털]-2024".data) = true
    ∧ bucketTagMember digTag ("ABC[디지털]".data) = true := by
  refine ⟨?_, ?_, by decide, by decide⟩
  · intro tag s t hs
    unfold bucketTagMember skuForStatus
    rw [takeBeforeChar_append hs, takeBeforeChar_eq_self hs]
  · intro tag raw comp hmem hsub
    unfold bucketTagMember
    have h1 : tag <:+: comp := isSubstr_iff_infix.mp hsub
    have h2 : comp <:+: skuForStatus raw := mem_splitOnChar_infix hmem
    exact isSubstr_iff_infix.mpr (h1.trans h2)

/-- C2 witness: the amended theorem applied at concrete SKUs. -/
theorem c2_witness :
    bucketTagMember digTag (("ABC[디지털]".data) ++ '-' :: ("2024".data))
      = bucketTagMember digTag ("ABC[디지털]".data)
    ∧ bucketTagMember resTag ("X/Y[예약상품]".data) = true :=
  ⟨c2_status_sku_tags.1 digTag ("ABC[디지털]".data) ("2024".data) (by decide),
   c2_status_sku_tags.2.1 resTag ("X/Y[예약상품]".data) ("Y[예약상품]".data)
     (by decide) (by decide)⟩

/-- C3 counterexample: every `/`-component of this SKU contains the digital
tag (so under the spec's substring tag-semantics fewer than 3 components lack
it), but three components do not end with the tag, so the code rejects it. -/
theorem c3_counterexample :
    isPureDigitalSpec c3CounterSku = true
    ∧ is_pure_digital_product c3CounterSku = false := ⟨by decide, by decide⟩

/-- C3 (amended): pure-digital holds iff the SKU ends with `[디지털]` and
(it has no `/` or fewer than 3 of its `/`-separated components fail to END
with the digital tag); in particular 2 failing components still count as pure
digital and 3 do not. -/
theorem c3_pure_digital :
    (∀ sku : List Char,
        is_pure_digital_product sku = true ↔
          digTag <:+ sku ∧
            ('/' ∉ sku ∨
              ((splitOnChar '/' sku).filter
                  (fun c => !endsWithB c digTag)).length < 3))
    ∧ is_pure_digital_product ("A/B/C[디지털]".data) = true
    ∧ is_pure_digital_product ("A/B/C/D[디지털]".data) = false := by
  refine ⟨?_, by decide, by decide⟩
  intro sku
  by_cases he : endsWithB sku digTag = true
  · by_cases hc : containsCharB '/' sku = true
    · by_cases hlen :
        ((splitOnChar '/' sku).filter (fun c => !endsWithB c digTag)).length ≥ 3
      · simp only [is_pure_digital_product, he, hc, Bool.not_true, if_pos hlen]
        simp [endsWithB_iff_suffix.mp he, containsCharB_iff_mem.mp hc]
        omega
      · simp only [is_pure_digital_product, he, hc, Bool.not_true, if_neg hlen]
        simp [endsWithB_iff_suffix.mp he]
        omega
    · have hns : ('/' : Char) ∉ sku := fun hm => hc (containsCharB_iff_mem.mpr hm)
      have hc' : containsCharB '/' sku = false := by
        cases h : containsCharB '/' sku
        · rfl
        · exact absurd h hc
      simp only [is_pure_digital_product, he, hc', Bool.not_true]
      simp [endsWithB_iff_suffix.mp he, hns]
  · have he' : endsWithB sku digTag = false := by
      cases h : endsWithB sku digTag
      · rfl
      · exact absurd h he
    have hnsuf : ¬ digTag <:+ sku := fun hs => he (endsWithB_iff_suffix.mpr hs)
    simp [is_pure_digital_product, he', hnsuf]

/-- C9: manifest merge is read-concat-write append: merging into a
not-yet-existing day file yields exactly the new rows, merging into an
existing file appends with no per-order-id deduplication (row counts add),
and two-pass merging into a fresh file equals one-pass merging. -/
theorem c9_manifest_merge :
    (∀ rows : List Row, mergeManifest none rows = rows)
    ∧ (∀ old rows : List Row, mergeManifest (some old) rows = old ++ rows)
    ∧ (∀ (old rows : List Row) (p : Row → Bool),
        (mergeManifest (some old) rows).countP p = old.countP p + rows.countP p)
    ∧ (∀ rowsA rowsB : List Row,
        mergeManifest (some (mergeManifest none rowsA)) rowsB
          = mergeManifest none (rowsA ++ rowsB)) := by
  refine ⟨fun rows => rfl, fun old rows => rfl, ?_, fun A B => rfl⟩
  intro old rows p
  simp [mergeManifest, List.countP_append]

/-- C10: the second domestic re-check inside international processing is a
no-op: it filters by the same pure predicate on the same unchanged addresses
that already passed the first overseas filter, so it removes nothing. -/
theorem c10_recheck_noop :
    ∀ df : List Row, intlRecheckPass (intlFirstPass df) = intlFirstPass df := by
  intro df
  show (intlFirstPass df).filter _ = intlFirstPass df
  apply List.filter_eq_self.mpr
  intro r hr
  rw [intlFirstPass, List.mem_filter] at hr
  obtain ⟨-, h⟩ := hr
  rw [Bool.and_eq_true] at h
  obtain ⟨hp, hk⟩ := h
  cases haddr : r.addr with
  | none => rw [haddr] at hp; simp [addrPresentNonempty] at hp
  | some a =>
    rw [haddr] at hk
    simp only [isKoreanAddrOpt, Bool.not_eq_true'] at hk
    simp [pyStrOfOpt, haddr, hk]

/-- C6: reservation extraction ordering invariant — every reservation-tagged
row is removed from the shipping dataframe before the domestic/international
split, so no reservation-tagged row ever reaches a domestic or international
order sheet. -/
theorem c6_reservation_extraction :
    (∀ (df : List Row) (r : Row), r ∈ shippingDf df →
        isSubstr resTag r.sku = false)
    ∧ (∀ (df : List Row) (r : Row), r ∈ domesticSelected (shippingDf df) →
        isSubstr resTag r.sku = false)
    ∧ (∀ (df : List Row) (r : Row), r ∈ intlSelected (shippingDf df) →
        isSubstr resTag r.sku = false) := by
  have base : ∀ (df : List Row) (r : Row), r ∈ shippingDf df →
      isSubstr resTag r.sku = false := by
    intro df r hr
    rw [shippingDf, List.mem_filter] at hr
    simpa using hr.2
  refine ⟨base, ?_, ?_⟩
  · intro df r hr
    apply base df
    unfold domesticSelected at hr
    exact List.mem_of_mem_filter (List.mem_of_mem_filter hr)
  · intro df r hr
    apply base df
    unfold intlSelected intlAddrScriptPass intlRecipientPass intlTagPass
      intlRecheckPass intlFirstPass at hr
    exact List.mem_of_mem_filter (List.mem_of_mem_filter
      (List.mem_of_mem_filter (List.mem_of_mem_filter
        (List.mem_of_mem_filter hr))))

/-- C6 witness: the theorem applied to a concrete dataframe whose domestic and
international sheets each hold one row. -/
theorem c6_witness :
    isSubstr resTag c6DomesticRow.sku = false
    ∧ isSubstr resTag c6IntlRow.sku = false :=
  ⟨c6_reservation_extraction.2.1 c6Df c6DomesticRow (by decide),
   c6_reservation_extraction.2.2 c6Df c6IntlRow (by decide)⟩

/-- C7: tracking batch build — rows with an empty (stripped) order number or
tracking number are skipped, rows without a recognized `S`/`D` prefix are
skipped, the batch holds at most one record per `site_cleanId` key, and the
record stored for a key is the one of the last sheet row contributing that key
(last-in-sheet wins). -/
theorem c7_tracking_batch :
    (∀ (rows : List TrackRow) (row : TrackRow),
        stripPy row.orderNo = [] ∨ stripPy row.tracking = [] →
        buildTrackingMap (rows ++ [row]) = buildTrackingMap rows)
    ∧ (∀ (rows : List TrackRow) (row : TrackRow),
        parse_order_number (stripPy row.orderNo) = none →
        buildTrackingMap (rows ++ [row]) = buildTrackingMap rows)
    ∧ (∀ rows : List TrackRow, ((buildTrackingMap rows).map Prod.fst).Nodup)
    ∧ (∀ (rows : List TrackRow) (k : List Char),
        lookupKey k (buildTrackingMap rows) = lastValidEntry rows k) := by
  refine ⟨?_, ?_, buildTrackingMap_keys_nodup, lookup_buildTrackingMap⟩
  · intro rows row h
    rw [buildTrackingMap_append_singleton, trackStep_none (validEntry_of_empty h)]
  · intro rows row h
    rw [buildTrackingMap_append_singleton,
      trackStep_none (validEntry_of_unparsed h)]

/-- C7 witness: two rows for order D500 collapse to one record holding the
later tracking number, and a row with an empty tracking number is skipped. -/
theorem c7_witness :
    buildTrackingMap (c7Rows ++ [c7SkipRow]) = buildTrackingMap c7Rows
    ∧ lookupKey c7Key (buildTrackingMap c7Rows) = lastValidEntry c7Rows c7Key
    ∧ lastValidEntry c7Rows c7Key = some c7ExpectedRecord :=
  ⟨c7_tracking_batch.1 c7Rows c7SkipRow (Or.inr (by decide)),
   c7_tracking_batch.2.2.2 c7Rows c7Key,
   by decide⟩

/-- C4: the domestic test returns true iff the text contains a Hangul
syllable, or a standalone word-boundary case-insensitive KR token, or one of
the literal keywords KOREA / SOUTH KOREA / 대한민국 / 한국 (as a substring of
the uppercased text); any string containing a Hangul syllable is domestic
regardless of other content, and `KR` inside a longer token (as in
`DARK 123 Street`) does not match. -/
theorem c4_is_domestic :
    (∀ s : List Char, isKoreanAddr s = true ↔
        ((∃ c ∈ s, isHangulSyllable c = true) ∨ KRTokenSpec s ∨
          ∃ k ∈ koreanKeywords, k <:+: upperStr s))
    ∧ (∀ s : List Char, (∃ c ∈ s, isHangulSyllable c = true) →
        isKoreanAddr s = true)
    ∧ isKoreanAddr ("DARK 123 Street".data) = false := by
  have main : ∀ s : List Char, isKoreanAddr s = true ↔
      ((∃ c ∈ s, isHangulSyllable c = true) ∨ KRTokenSpec s ∨
        ∃ k ∈ koreanKeywords, k <:+: upperStr s) := by
    intro s
    rw [isKoreanAddr_eq_or]
    simp only [Bool.or_eq_true]
    rw [or_assoc]
    refine or_congr ?_ (or_congr ?_ ?_)
    · simp [hasHangul, List.any_eq_true]
    · exact hasStandaloneKR_iff s
    · simp [hasKoreaKeyword, List.any_eq_true, isSubstr_iff_infix]
  refine ⟨main, ?_, by decide⟩
  intro s hs
  exact (main s).mpr (Or.inl hs)

/-- C4 witness: the Hangul clause applied at a concrete mixed-script
address. -/
theorem c4_witness : isKoreanAddr ("서울 Gangnam-gu 12".data) = true :=
  c4_is_domestic.2.1 ("서울 Gangnam-gu 12".data) (by decide)

/-- C5 counterexample: on an address with a doubled space the geocoder
passthrough returns the whitespace-collapsed address, not the input
unchanged. -/
theorem c5_counterexample :
    normalize_address_with_google_maps true c5Addr (GeoOutcome.ok c5KrComps)
      = (("A B".data), some ("KR".data))
    ∧ ("A B".data) ≠ c5Addr := ⟨by decide, by decide⟩

/-- C5 (amended): when the geocoder resolves the address to country code KR
the function returns the whitespace-normalized address (tokens re-joined by
single spaces, otherwise unchanged) with code KR, and when the call fails or
returns no result it returns the whitespace-normalized address with no
code. -/
theorem c5_normalize_passthrough :
    (∀ (addr : List Char) (comps : List AddrComponent), addr ≠ [] →
        extractCountryCode comps = some ("KR".data) →
        normalize_address_with_google_maps true addr (GeoOutcome.ok comps)
          = (wsNormalize addr, some ("KR".data)))
    ∧ (∀ addr : List Char, addr ≠ [] →
        normalize_address_with_google_maps true addr GeoOutcome.httpError
          = (wsNormalize addr, none))
    ∧ (∀ addr : List Char, addr ≠ [] →
        normalize_address_with_google_maps true addr GeoOutcome.noResult
          = (wsNormalize addr, none)) := by
  refine ⟨?_, ?_, ?_⟩
  · intro addr comps hne hcc
    simp [normalize_address_with_google_maps, hne, hcc]
  · intro addr hne
    simp [normalize_address_with_google_maps, hne]
  · intro addr hne
    simp [normalize_address_with_google_maps, hne]

/-- C5 witness: the amended theorem applied at the concrete address. -/
theorem c5_witness :
    normalize_address_with_google_maps true c5Addr (GeoOutcome.ok c5KrComps)
      = (wsNormalize c5Addr, some ("KR".data))
    ∧ normalize_address_with_google_maps true c5Addr GeoOutcome.httpError
      = (wsNormalize c5Addr, none) :=
  ⟨c5_normalize_passthrough.1 c5Addr c5KrComps (by decide) (by decide),
   c5_normalize_passthrough.2.1 c5Addr (by decide)⟩

/-- The final-parts list of a sole address line: just the stripped line when
it is non-empty. -/
theorem addressFinalParts_sole (a : List Char) :
    addressFinalParts (soleAddressLine a)
      = if stripPy a ≠ [] then [stripPy a] else [] := by
  unfold addressFinalParts soleAddressLine
  simp [dedupRegions, stripPy]

/-- C8: the built display address never repeats a whitespace-separated token
twice consecutively, and the builder is idempotent on its own output used as
the sole address line. -/
theorem c8_build_clean_address :
    ∀ sh : ShippingFields,
      List.Chain' (fun a b => a ≠ b)
        (splitWs (build_clean_address (some sh)))
      ∧ build_clean_address
          (some (soleAddressLine (build_clean_address (some sh))))
        = build_clean_address (some sh) := by
  intro sh
  have hGood : GoodWords (dedupAdj (splitWs
      (collapseWs (stripPy (joinSpace (addressFinalParts sh)))))) := by
    intro w hw
    exact splitWs_good _ w (dedupAdj_subset w hw)
  have hChain := dedupAdj_chain (splitWs
    (collapseWs (stripPy (joinSpace (addressFinalParts sh)))))
  have hbuild : build_clean_address (some sh)
      = joinSpace (dedupAdj (splitWs
          (collapseWs (stripPy (joinSpace (addressFinalParts sh)))))) := rfl
  constructor
  · rw [hbuild, splitWs_join hGood]
    exact hChain
  · rw [hbuild]
    generalize hws : dedupAdj (splitWs
      (collapseWs (stripPy (joinSpace (addressFinalParts sh))))) = ws
      at hGood hChain
    cases ws with
    | nil => decide
    | cons w ws' =>
      have hstrip : stripPy (joinSpace (w :: ws')) = joinSpace (w :: ws') :=
        stripPy_join hGood
      have hne : joinSpace (w :: ws') ≠ [] := by
        obtain ⟨hwne, hwgood⟩ := hGood w (List.mem_cons_self w ws')
        obtain ⟨a, w', rfl⟩ : ∃ a w', w = a :: w' := by
          cases w with
          | nil => exact absurd rfl hwne
          | cons a w' => exact ⟨a, w', rfl⟩
        obtain ⟨tail, htail⟩ := joinSpace_head (l := ws')
          (rfl : (a :: w') = a :: w')
        rw [htail]
        simp
      show buildCleanAddressCore (soleAddressLine (joinSpace (w :: ws'))) = _
      unfold buildCleanAddressCore
      rw [addressFinalParts_sole, hstrip, if_pos hne]
      have hsingle : joinSpace [joinSpace (w :: ws')] = joinSpace (w :: ws') := rfl
      rw [hsingle, hstrip, collapseWs_join hGood, splitWs_join hGood,
        dedupAdj_of_chain hChain]

end ThreePL
